import Mathlib

/-!
Verification development for `m3u8_download.py`: a resumable, ad-filtering
HLS segment fetcher.  Python strings are embedded as `String` whose
character data (`List Char`) is manipulated by executable models of the
string primitives the source uses (`str.strip`, `str.split`,
`str.startswith`, `str.endswith`, substring test, `'\n'.join`,
`str.rsplit`).  Filesystem, network and JSON effects are embedded as
explicit oracles / outcome records.
-/

namespace M3u8

/-- Python whitespace for `str.strip()` (ASCII portion; the manifests in
scope are ASCII). -/
def isPySpace (c : Char) : Bool :=
  c = ' ' || c = '\t' || c = '\n' || c = '\r' || c = '\x0b' || c = '\x0c'

/-- Model of Python `s.strip()` on character data. -/
def pyStrip (l : List Char) : List Char :=
  ((l.dropWhile isPySpace).reverse.dropWhile isPySpace).reverse

/-- Model of Python `s.startswith(p)` (here: `p` begins the list `l`). -/
def beginsWith : List Char → List Char → Bool
  | [], _ => true
  | _ :: _, [] => false
  | p :: ps, c :: cs => p = c && beginsWith ps cs

/-- Model of Python `s.endswith(p)`. -/
def finishesWith (p l : List Char) : Bool :=
  beginsWith p.reverse l.reverse

/-- Model of Python `p in s` (substring test). -/
def hasSub (p : List Char) : List Char → Bool
  | [] => beginsWith p []
  | c :: rest => beginsWith p (c :: rest) || hasSub p rest

/-- The discontinuity directive prefix recognised by the filter. -/
def discoMarker : List Char := "#EXT-X-DISCONTINUITY".data

/-- The line-classification loop of `filter_ad_segments`
(src/m3u8_download.py lines 118-137 and identically 154-173):
`discontinuity_count` starts at 0, `skip_segment` starts false; a line
starting with `#EXT-X-DISCONTINUITY` bumps the count and is kept when the
new count is 1 or odd, dropped (entering skip) when it is even; any other
line is kept iff not skipping. -/
def filterAdLines (count : Nat) (skip : Bool) : List (List Char) → List (List Char)
  | [] => []
  | line :: rest =>
    if beginsWith discoMarker line then
      let c := count + 1
      if c = 1 then line :: filterAdLines c false rest
      else if c % 2 = 0 then filterAdLines c true rest
      else line :: filterAdLines c false rest
    else if skip then filterAdLines count skip rest
    else line :: filterAdLines count skip rest

/-- The lines the source iterates over: `m3u8_content.strip().split('\n')`.
`List.splitOn '\n'` matches Python `split('\n')`: the empty string gives
one empty chunk, and `k` newlines give `k + 1` chunks. -/
def pyLines (s : String) : List (List Char) :=
  (pyStrip s.data).splitOn '\n'

/-- Model of Python `'\n'.join(lines)`. -/
def joinNl (ls : List (List Char)) : List Char :=
  List.intercalate ['\n'] ls

/-- Embedding of the second (live) definition of `filter_ad_segments`
(src/m3u8_download.py lines 141-175). -/
def filter_ad_segments (m3u8_content : String) : String :=
  ⟨joinNl (filterAdLines 0 false (pyLines m3u8_content))⟩

/-- Embedding of the first, shadowed definition of `filter_ad_segments`
(src/m3u8_download.py lines 100-139); its body is character-for-character
the same as the second definition's. -/
def filter_ad_segments_first (m3u8_content : String) : String :=
  ⟨joinNl (filterAdLines 0 false (pyLines m3u8_content))⟩

/-- The discontinuity-parity rule exactly as the specification words it: a
pure step function over state (counter, skip flag) returning the new state
and an optional emitted line.  This is the spec-side definition used for
the refinement comparison; the code-side definition is `filterAdLines`. -/
def specRuleStep : Nat × Bool → List Char → (Nat × Bool) × Option (List Char) :=
  fun st line =>
    if beginsWith discoMarker line then
      let c := st.1 + 1
      if c = 1 then ((c, false), some line)
      else if c % 2 = 0 then ((c, true), none)
      else ((c, false), some line)
    else (st, if st.2 then none else some line)

/-- One fold step of the spec-side filter: thread the state and append
the emitted line (when any) to the output. -/
def specRuleFold (acc : (Nat × Bool) × List (List Char)) (line : List Char) :
    (Nat × Bool) × List (List Char) :=
  let next := specRuleStep acc.1 line
  (next.1, acc.2 ++ next.2.toList)

/-- Spec-side filter: fold `specRuleStep` over the trimmed, newline-split
lines, collecting the emitted lines, and rejoin. -/
def specRuleFilter (s : String) : String :=
  ⟨joinNl ((pyLines s).foldl specRuleFold (((0 : Nat), false), [])).2⟩

/-- A line counts as a segment reference when it ends with `.ts` or
contains `.ts?` (src lines 193, 332, 338). -/
def isTsLine (line : List Char) : Bool :=
  finishesWith ".ts".data line || hasSub ".ts?".data line

/-- Model of Python `s.takeWhile` up to the query/fragment delimiters used
by `urlparse` (`?` starts the query, `#` the fragment). -/
def takeUntilQH (l : List Char) : List Char :=
  l.takeWhile (fun c => !(c = '?' || c = '#'))

/-- After the scheme, skip the netloc (up to the first `/`, `?` or `#`);
the path is the part from the first `/` up to `?`/`#`, or empty when the
authority is followed directly by a query/fragment/end. -/
def pathAfterNetloc (l : List Char) : List Char :=
  let r := l.dropWhile (fun c => !(c = '/' || c = '?' || c = '#'))
  if beginsWith ['/'] r then takeUntilQH r else []

/-- Model of Python `urlparse(url).path` for the URL shapes in scope:
`http://` / `https://` URLs have the netloc stripped first; scheme-less
strings are all path up to the query/fragment. -/
def urlparsePath (url : List Char) : List Char :=
  if beginsWith "http://".data url then pathAfterNetloc (url.drop 7)
  else if beginsWith "https://".data url then pathAfterNetloc (url.drop 8)
  else takeUntilQH url

/-- Model of Python `os.path.basename`: everything after the last `/`. -/
def basenameL (p : List Char) : List Char :=
  (p.reverse.takeWhile (fun c => c ≠ '/')).reverse

/-- The scheme-plus-netloc part of a base URL, for joining root-relative
references. -/
def schemeNetloc (l : List Char) : List Char :=
  if beginsWith "http://".data l then
    "http://".data ++ (l.drop 7).takeWhile (fun c => !(c = '/' || c = '?' || c = '#'))
  else if beginsWith "https://".data l then
    "https://".data ++ (l.drop 8).takeWhile (fun c => !(c = '/' || c = '?' || c = '#'))
  else []

/-- The base URL up to and including its last `/`. -/
def dirOf (l : List Char) : List Char :=
  (l.reverse.dropWhile (fun c => c ≠ '/')).reverse

/-- Model of Python `urljoin(base, url)` for the URL shapes in scope: an
absolute `http(s)` reference replaces the base; a root-relative reference
keeps the base's scheme and netloc; any other reference is resolved
against the base's directory.  (`..` collapsing and other RFC 3986 corner
cases are outside the shapes this pipeline produces.) -/
def urljoinL (base url : List Char) : List Char :=
  if beginsWith "http://".data url || beginsWith "https://".data url then url
  else if beginsWith ['/'] url then schemeNetloc base ++ url
  else dirOf base ++ url

/-- The resolved segment URL: `urljoin(base_url, line)`. -/
def tsUrl (base : String) (line : List Char) : String :=
  ⟨urljoinL base.data line⟩

/-- `os.path.basename(urlparse(urljoin(base_url, line)).path)` — the
deterministically derived segment filename (src lines 194-195, 341-342). -/
def deriveFilename (base : String) (line : List Char) : String :=
  ⟨basenameL (urlparsePath (urljoinL base.data line))⟩

/-- The filename actually used for a matched line: the derived name, or
the synthetic `segment_<n>.ts` where `n = len(ts_files)` at that point
(src lines 197-198, 344-345).  Because every matched line appends exactly
one entry to `ts_files`, `len(ts_files)` equals the 0-based index of the
segment among the retained (post-filter) matched lines. -/
def segmentFilename (base : String) (idx : Nat) (line : List Char) : String :=
  let f := deriveFilename base line
  if f = "" then "segment_" ++ toString idx ++ ".ts" else f

/-- The persisted resume record: fields `downloaded_segments` and
`total_segments` (src lines 257, 329-333). -/
structure DownloadState where
  downloaded_segments : List String
  total_segments : Nat
deriving DecidableEq

/-- Loop state of `download_ts_segments_with_resume`: the result list, the
URLs GET-ed so far (in order), the in-memory `downloaded_list`, and every
state record written through `save_download_state` (in order). -/
structure FetchSt where
  tsFiles : List String
  requests : List String
  dlList : List String
  saves : List DownloadState
deriving DecidableEq

/-- Outcome of a fetch pass: `err = some url` models the re-raised
download exception for that URL (src lines 369-371). -/
structure FetchOutcome where
  tsFiles : List String
  requests : List String
  saves : List DownloadState
  err : Option String
deriving DecidableEq

/-- The per-line loop of `download_ts_segments_with_resume`
(src lines 337-371).  `net` is the HTTP oracle: `none` models a transport
error or non-2xx status (`requests.get` raising / `raise_for_status`).
A completed segment is appended without any network call; otherwise the
GET is issued, a failure aborts the pass with the error propagated, and a
success appends the file, extends `downloaded_list` (if new) and writes
the state through immediately. -/
def fetchGo (base : String) (net : String → Option String) (completed : List String)
    (total : Nat) : List (List Char) → FetchSt → FetchSt × Option String
  | [], st => (st, none)
  | line :: rest, st =>
    if isTsLine line then
      let url := tsUrl base line
      let filename := segmentFilename base st.tsFiles.length line
      if filename ∈ completed then
        fetchGo base net completed total rest
          { st with tsFiles := st.tsFiles ++ [filename] }
      else
        match net url with
        | none => ({ st with requests := st.requests ++ [url] }, some url)
        | some _body =>
          fetchGo base net completed total rest
            { tsFiles := st.tsFiles ++ [filename],
              requests := st.requests ++ [url],
              dlList := if filename ∈ st.dlList then st.dlList else st.dlList ++ [filename],
              saves := st.saves ++
                [⟨if filename ∈ st.dlList then st.dlList else st.dlList ++ [filename], total⟩] }
    else fetchGo base net completed total rest st

/-- Embedding of `download_ts_segments_with_resume` (src lines 320-373).
`downloaded_segments` is the completed-set parameter; `persisted` is what
`load_download_state` returns inside the function (src line 328).  The
first save is the total-count write-through of src lines 332-334. -/
def download_ts_segments_with_resume (m3u8_content base_url : String)
    (downloaded_segments : List String) (persisted : DownloadState)
    (net : String → Option String) : FetchOutcome :=
  let lines := pyLines m3u8_content
  let total := (lines.filter isTsLine).length
  let r := fetchGo base_url net downloaded_segments total lines
    ⟨[], [], persisted.downloaded_segments, [⟨persisted.downloaded_segments, total⟩]⟩
  ⟨r.1.tsFiles, r.1.requests, r.1.saves, r.2⟩

/-- The per-line loop of the plain (non-resume) `download_ts_segments`
(src lines 189-209): every matched line is fetched; a failure propagates
(`raise_for_status`). -/
def download_ts_segments_go (base : String) (net : String → Option String)
    : List (List Char) → List String → List String →
      List String × List String × Option String
  | [], files, reqs => (files, reqs, none)
  | line :: rest, files, reqs =>
    if isTsLine line then
      let url := tsUrl base line
      let filename := segmentFilename base files.length line
      match net url with
      | none => (files, reqs ++ [url], some url)
      | some _body =>
        download_ts_segments_go base net rest (files ++ [filename]) (reqs ++ [url])
    else download_ts_segments_go base net rest files reqs

/-- Embedding of `download_ts_segments` (src lines 177-209); result is
(ts_files, requested URLs, optional propagated error). -/
def download_ts_segments (m3u8_content base_url : String)
    (net : String → Option String) : List String × List String × Option String :=
  download_ts_segments_go base_url net (pyLines m3u8_content) [] []

/-- The canonical filename of each matched line, indexed by its 0-based
position among the matched lines; `i` is the index of the first line. -/
def canonNamesGo (base : String) (i : Nat) : List (List Char) → List String
  | [] => []
  | line :: rest =>
    if isTsLine line then segmentFilename base i line :: canonNamesGo base (i + 1) rest
    else canonNamesGo base i rest

/-- The canonical ordered filename list of a manifest: one name per
matched line, in manifest order. -/
def canonNames (m3u8_content base : String) : List String :=
  canonNamesGo base 0 (pyLines m3u8_content)

/-- The URLs a resume-aware pass requests: one GET per matched line whose
canonical filename is not in the completed-set, in manifest order. -/
def requestUrlsGo (base : String) (completed : List String) (i : Nat) :
    List (List Char) → List String
  | [] => []
  | line :: rest =>
    if isTsLine line then
      if segmentFilename base i line ∈ completed then
        requestUrlsGo base completed (i + 1) rest
      else tsUrl base line :: requestUrlsGo base completed (i + 1) rest
    else requestUrlsGo base completed i rest

/-- What reading the state file can yield: the file is missing
(`FileNotFoundError`), unreadable (another `OSError`), readable but not
valid JSON for the record (`json.load` raises), or a valid record. -/
inductive FileRead where
  | absent
  | unreadable
  | corrupt
  | valid (st : DownloadState)
deriving DecidableEq

/-- Stand-in for `hashlib.md5(url.encode()).hexdigest()`: a deterministic
digest of the URL string.  No claim depends on the digest's value, only
on the key being a function of the URL. -/
def md5hexModel (s : String) : String :=
  toString (s.data.foldl (fun a c => (a * 131 + c.toNat) % (2 ^ 128)) 7)

/-- Embedding of `get_download_state_filename` (src lines 245-248). -/
def get_download_state_filename (m3u8_url : String) : String :=
  "download_state_" ++ md5hexModel m3u8_url ++ ".json"

/-- Embedding of `load_download_state` (src lines 250-257): the `try`
block catches exactly `FileNotFoundError`; a missing file yields the
default record, while an unreadable file or invalid JSON re-raises
(modelled as `Except.error` carrying the exception type). -/
def load_download_state (fs : String → FileRead) (m3u8_url : String) :
    Except String DownloadState :=
  match fs (get_download_state_filename m3u8_url) with
  | .valid st => .ok st
  | .absent => .ok ⟨[], 0⟩
  | .unreadable => .error "OSError"
  | .corrupt => .error "JSONDecodeError"

/-- Embedding of `concatenate_videos` (src lines 211-224): `fs` maps a
filename to its byte contents (`none` = unreadable, which propagates as a
read error).  On success the destination receives the byte-for-byte
concatenation in list order. -/
def concatenate_videos (fs : String → Option (List Nat)) :
    List String → Except String (List Nat)
  | [] => .ok []
  | f :: rest =>
    match fs f with
    | none => .error f
    | some bytes =>
      match concatenate_videos fs rest with
      | .ok out => .ok (bytes ++ out)
      | .error e => .error e

/-- Model of Python `s.rsplit('.', 1)[0]`: the part before the last `.`,
or the whole string when there is no `.`. -/
def pyRsplitDotHead (l : List Char) : List Char :=
  if hasSub ['.'] l then ((l.reverse.dropWhile (fun c => c ≠ '.')).drop 1).reverse
  else l

/-- The output-name normalization performed inline by
`download_m3u8_video_to_mp4` (src lines 19-20) and
`download_m3u8_video_to_mp4_with_resume` (src lines 270-271):
`if not output_filename.endswith('.mp4'):
   output_filename = output_filename.rsplit('.', 1)[0] + '.mp4'`. -/
def normalize_output_filename (output_filename : String) : String :=
  if finishesWith ".mp4".data output_filename.data then output_filename
  else ⟨pyRsplitDotHead output_filename.data ++ ".mp4".data⟩

/-! ### Lemmas about the ad filter -/

theorem filterAdLines_sublist (c : Nat) (b : Bool) (ls : List (List Char)) :
    List.Sublist (filterAdLines c b ls) ls := by
  induction ls generalizing c b with
  | nil => exact List.Sublist.refl _
  | cons line rest ih =>
    simp only [filterAdLines]
    split
    · split
      · exact (ih _ _).cons₂ _
      · split
        · exact (ih _ _).cons _
        · exact (ih _ _).cons₂ _
    · split
      · exact (ih _ _).cons _
      · exact (ih _ _).cons₂ _

theorem filterAdLines_of_no_marker (c : Nat) (ls : List (List Char))
    (h : ∀ l ∈ ls, beginsWith discoMarker l = false) :
    filterAdLines c false ls = ls := by
  induction ls generalizing c with
  | nil => rfl
  | cons line rest ih =>
    have hl := h line (List.mem_cons_self _ _)
    have hstep : filterAdLines c false (line :: rest) = line :: filterAdLines c false rest := by
      simp [filterAdLines, hl]
    rw [hstep, ih c fun l hl2 => h l (List.mem_cons_of_mem _ hl2)]

theorem filterAdLines_one_marker (ls : List (List Char))
    (h : ls.countP (fun l => beginsWith discoMarker l) = 1) :
    filterAdLines 0 false ls = ls := by
  induction ls with
  | nil => rfl
  | cons line rest ih =>
    by_cases hm : beginsWith discoMarker line = true
    · have h0 : rest.countP (fun l => beginsWith discoMarker l) = 0 := by
        simp only [List.countP_cons] at h
        rw [if_pos hm] at h
        omega
      have hrest : ∀ l ∈ rest, beginsWith discoMarker l = false := by
        intro l hl
        by_contra hc
        have hpos : 0 < rest.countP (fun l => beginsWith discoMarker l) :=
          List.countP_pos_iff.mpr ⟨l, hl, by simpa using hc⟩
        omega
      have hstep : filterAdLines 0 false (line :: rest) =
          line :: filterAdLines 1 false rest := by
        simp [filterAdLines, hm]
      rw [hstep, filterAdLines_of_no_marker 1 rest hrest]
    · have h1 : rest.countP (fun l => beginsWith discoMarker l) = 1 := by
        simp only [List.countP_cons] at h
        rw [if_neg hm] at h
        omega
      have hstep : filterAdLines 0 false (line :: rest) =
          line :: filterAdLines 0 false rest := by
        simp [filterAdLines, hm]
      rw [hstep, ih h1]

theorem specRule_foldl (ls : List (List Char)) : ∀ (c : Nat) (b : Bool) (acc : List (List Char)),
    (ls.foldl specRuleFold ((c, b), acc)).2 = acc ++ filterAdLines c b ls := by
  induction ls with
  | nil =>
    intro c b acc
    simp [filterAdLines]
  | cons line rest ih =>
    intro c b acc
    rw [List.foldl_cons]
    by_cases hm : beginsWith discoMarker line = true
    · by_cases h1 : c + 1 = 1
      · have hstep : specRuleFold ((c, b), acc) line = ((c + 1, false), acc ++ [line]) := by
          simp [specRuleFold, specRuleStep, hm, h1]
        rw [hstep, ih]
        simp [filterAdLines, hm, h1]
      · by_cases h2 : (c + 1) % 2 = 0
        · have hstep : specRuleFold ((c, b), acc) line = ((c + 1, true), acc) := by
            simp [specRuleFold, specRuleStep, hm, h1, h2]
          rw [hstep, ih]
          simp [filterAdLines, hm, h1, h2]
        · have hstep : specRuleFold ((c, b), acc) line = ((c + 1, false), acc ++ [line]) := by
            simp [specRuleFold, specRuleStep, hm, h1, h2]
          rw [hstep, ih]
          simp [filterAdLines, hm, h1, h2]
    · cases b with
      | true =>
        have hstep : specRuleFold ((c, true), acc) line = ((c, true), acc) := by
          simp [specRuleFold, specRuleStep, hm]
        rw [hstep, ih]
        simp [filterAdLines, hm]
      | false =>
        have hstep : specRuleFold ((c, false), acc) line = ((c, false), acc ++ [line]) := by
          simp [specRuleFold, specRuleStep, hm]
        rw [hstep, ih]
        simp [filterAdLines, hm]

/-! ### Claim theorems: the ad filter -/

/-- C1: `filter_ad_segments` implements the discontinuity-parity rule as
worded by the spec (a stateful walk over the trimmed, newline-split lines
with counter and skip flag), and on the end-to-end scenario — 7 markers,
10 segments, segments 3-4 between markers 2-3 and segments 7-8 between
markers 4-5 — the output retains exactly segments 1, 2, 5, 6, 9, 10. -/
theorem ad_filter_parity_rule :
    (∀ s : String, filter_ad_segments s = specRuleFilter s) ∧
    filter_ad_segments
        "seg_1.ts\nseg_2.ts\n#EXT-X-DISCONTINUITY\n#EXT-X-DISCONTINUITY\nseg_3.ts\nseg_4.ts\n#EXT-X-DISCONTINUITY\nseg_5.ts\nseg_6.ts\n#EXT-X-DISCONTINUITY\nseg_7.ts\nseg_8.ts\n#EXT-X-DISCONTINUITY\nseg_9.ts\nseg_10.ts\n#EXT-X-DISCONTINUITY\n#EXT-X-DISCONTINUITY" =
      "seg_1.ts\nseg_2.ts\n#EXT-X-DISCONTINUITY\n#EXT-X-DISCONTINUITY\nseg_5.ts\nseg_6.ts\n#EXT-X-DISCONTINUITY\nseg_9.ts\nseg_10.ts\n#EXT-X-DISCONTINUITY" ∧
    (pyLines (filter_ad_segments
        "seg_1.ts\nseg_2.ts\n#EXT-X-DISCONTINUITY\n#EXT-X-DISCONTINUITY\nseg_3.ts\nseg_4.ts\n#EXT-X-DISCONTINUITY\nseg_5.ts\nseg_6.ts\n#EXT-X-DISCONTINUITY\nseg_7.ts\nseg_8.ts\n#EXT-X-DISCONTINUITY\nseg_9.ts\nseg_10.ts\n#EXT-X-DISCONTINUITY\n#EXT-X-DISCONTINUITY")).filter isTsLine =
      ["seg_1.ts".data, "seg_2.ts".data, "seg_5.ts".data, "seg_6.ts".data,
       "seg_9.ts".data, "seg_10.ts".data] := by
  refine ⟨fun s => ?_, by decide, by decide⟩
  show (⟨joinNl (filterAdLines 0 false (pyLines s))⟩ : String) =
    ⟨joinNl ((pyLines s).foldl specRuleFold (((0 : Nat), false), [])).2⟩
  rw [specRule_foldl (pyLines s) 0 false [], List.nil_append]

/-- C10: the second definition of `filter_ad_segments` shadows a first,
byte-identical definition; the two are extensionally equal, so the
shadowing changes no behaviour. -/
theorem duplicate_filter_defs_equal :
    ∀ s : String, filter_ad_segments_first s = filter_ad_segments s :=
  fun _ => rfl

/-- C5 counterexample: on a manifest with exactly one discontinuity marker
but a trailing newline, the filter's output is NOT equal to its input —
`strip()` removes the trailing newline, so the map is not the identity on
that input. -/
theorem one_marker_not_identity_on_untrimmed :
    filter_ad_segments "a.ts\n#EXT-X-DISCONTINUITY\nb.ts\n" ≠
      "a.ts\n#EXT-X-DISCONTINUITY\nb.ts\n" := by
  decide

/-- C5 amended: for a manifest with exactly one discontinuity marker, the
filter keeps every line: the output equals the `strip()`-trimmed input;
in particular it is the identity on inputs with no leading or trailing
whitespace. -/
theorem one_marker_filter_is_trimmed_identity (s : String)
    (h : (pyLines s).countP (fun l => beginsWith discoMarker l) = 1) :
    filter_ad_segments s = ⟨pyStrip s.data⟩ ∧
    (pyStrip s.data = s.data → filter_ad_segments s = s) := by
  have hfl : filterAdLines 0 false (pyLines s) = pyLines s := filterAdLines_one_marker _ h
  have hmain : filter_ad_segments s = ⟨pyStrip s.data⟩ := by
    show (⟨joinNl (filterAdLines 0 false (pyLines s))⟩ : String) = ⟨pyStrip s.data⟩
    rw [hfl]
    show (⟨List.intercalate ['\n'] ((pyStrip s.data).splitOn '\n')⟩ : String) = ⟨pyStrip s.data⟩
    rw [List.intercalate_splitOn]
  refine ⟨hmain, fun he => ?_⟩
  rw [hmain, he]

/-- C5 witness: a concrete one-marker manifest with no surrounding
whitespace, on which the filter is literally the identity. -/
theorem one_marker_filter_witness :
    filter_ad_segments "a.ts\n#EXT-X-DISCONTINUITY\nb.ts" =
      "a.ts\n#EXT-X-DISCONTINUITY\nb.ts" :=
  (one_marker_filter_is_trimmed_identity "a.ts\n#EXT-X-DISCONTINUITY\nb.ts"
    (by decide)).2 (by decide)

/-- C9 counterexample: on the one-line manifest `"a.ts"` the filter drops
nothing, so the output's line sequence is not strictly shorter than the
input's — the "strict subset" part of the claim fails. -/
theorem filtered_not_strictly_shorter :
    ¬ (List.Sublist ((filter_ad_segments "a.ts").data.splitOn '\n') (pyLines "a.ts") ∧
       ((filter_ad_segments "a.ts").data.splitOn '\n').length < (pyLines "a.ts").length) :=
  fun h => absurd h.2 (by decide)

/-- C9 amended: the line sequence produced by `filter_ad_segments` is a
(not necessarily strict) subsequence of the trimmed input's lines,
preserving relative order, hence never longer. -/
theorem filtered_lines_subsequence (s : String) :
    filter_ad_segments s = ⟨joinNl (filterAdLines 0 false (pyLines s))⟩ ∧
    List.Sublist (filterAdLines 0 false (pyLines s)) (pyLines s) ∧
    (filterAdLines 0 false (pyLines s)).length ≤ (pyLines s).length :=
  ⟨rfl, filterAdLines_sublist _ _ _, (filterAdLines_sublist _ _ _).length_le⟩

/-! ### Claim theorems: resume state store -/

/-- C3 counterexample: a readable-but-corrupt state record makes
`load_download_state` raise (`json.load`'s error propagates — only
`FileNotFoundError` is caught), so loading does NOT "never fail the
caller". -/
theorem load_state_corrupt_raises :
    load_download_state (fun _ => FileRead.corrupt) "http://h/playlist.m3u8" =
      Except.error "JSONDecodeError" ∧
    load_download_state (fun _ => FileRead.corrupt) "http://h/playlist.m3u8" ≠
      Except.ok ⟨[], 0⟩ := by
  refine ⟨rfl, fun h => ?_⟩
  have hcontra : (Except.error "JSONDecodeError" : Except String DownloadState) =
      Except.ok ⟨[], 0⟩ := h
  exact Except.noConfusion hcontra

/-- C3 amended: loading the download state returns the persisted record
when one is readable and valid, returns the default (empty set, total 0)
when the record is absent, and raises (the error propagates to the
caller) when the record is corrupt or unreadable. -/
theorem load_state_behavior (fs : String → FileRead) (m3u8_url : String) :
    (fs (get_download_state_filename m3u8_url) = FileRead.absent →
      load_download_state fs m3u8_url = Except.ok ⟨[], 0⟩) ∧
    (∀ st, fs (get_download_state_filename m3u8_url) = FileRead.valid st →
      load_download_state fs m3u8_url = Except.ok st) ∧
    (fs (get_download_state_filename m3u8_url) = FileRead.corrupt →
      load_download_state fs m3u8_url = Except.error "JSONDecodeError") ∧
    (fs (get_download_state_filename m3u8_url) = FileRead.unreadable →
      load_download_state fs m3u8_url = Except.error "OSError") := by
  refine ⟨fun h => ?_, fun st h => ?_, fun h => ?_, fun h => ?_⟩ <;>
    simp [load_download_state, h]

/-- C3 witness: with no record on disk, loading yields the default state. -/
theorem load_state_behavior_witness :
    load_download_state (fun _ => FileRead.absent) "http://h/playlist.m3u8" =
      Except.ok ⟨[], 0⟩ :=
  (load_state_behavior (fun _ => FileRead.absent) "http://h/playlist.m3u8").1 rfl

/-! ### Claim theorems: assembler and output name -/

/-- C6: when every input file is readable, stream assembly produces
exactly the byte-for-byte concatenation of the inputs' contents in list
order, whose length is the sum of the input lengths (an empty file
contributes nothing and is not an error). -/
theorem assembler_byte_exact_concat (fs : String → Option (List Nat)) (files : List String)
    (h : ∀ f ∈ files, fs f ≠ none) :
    concatenate_videos fs files =
      Except.ok ((files.map (fun f => (fs f).getD [])).flatten) ∧
    ((files.map (fun f => (fs f).getD [])).flatten).length =
      (files.map (fun f => ((fs f).getD []).length)).sum := by
  constructor
  · induction files with
    | nil => rfl
    | cons f rest ih =>
      have hf := h f (List.mem_cons_self _ _)
      rcases hx : fs f with _ | bytes
      · exact absurd hx hf
      · simp only [concatenate_videos, hx]
        rw [ih fun g hg => h g (List.mem_cons_of_mem _ hg)]
        simp [hx]
  · simp [List.length_flatten, Function.comp_def]

/-- C6 witness: three files of sizes 10, 0 and 7 bytes assemble into
exactly the 17-byte concatenation; the empty middle file is no error. -/
theorem assembler_byte_exact_concat_witness :
    concatenate_videos
        (fun f => if f = "f1" then some [0, 1, 2, 3, 4, 5, 6, 7, 8, 9]
          else if f = "f2" then some []
          else if f = "f3" then some [10, 11, 12, 13, 14, 15, 16] else none)
        ["f1", "f2", "f3"] =
      Except.ok ((["f1", "f2", "f3"].map
        (fun f => ((fun f => if f = "f1" then some [0, 1, 2, 3, 4, 5, 6, 7, 8, 9]
          else if f = "f2" then some []
          else if f = "f3" then some [10, 11, 12, 13, 14, 15, 16] else none) f).getD [])).flatten) ∧
    ((["f1", "f2", "f3"].map
        (fun f => ((fun f => if f = "f1" then some [0, 1, 2, 3, 4, 5, 6, 7, 8, 9]
          else if f = "f2" then some []
          else if f = "f3" then some [10, 11, 12, 13, 14, 15, 16] else none) f).getD [])).flatten).length = 17 :=
  ⟨(assembler_byte_exact_concat _ _ (by decide)).1, by decide⟩

theorem beginsWith_append (p t : List Char) : beginsWith p (p ++ t) = true := by
  induction p with
  | nil => rfl
  | cons c cs ih => simp [beginsWith, ih]

/-- C7: the normalized output name always ends in `.mp4`; a name already
ending in `.mp4` is unchanged, otherwise the last dot-delimited suffix is
stripped and `.mp4` appended; `video`, `video.mkv` and `video.mp4` all
normalize to `video.mp4`. -/
theorem output_name_normalization (s : String) :
    finishesWith ".mp4".data (normalize_output_filename s).data = true ∧
    (finishesWith ".mp4".data s.data = true → normalize_output_filename s = s) ∧
    (finishesWith ".mp4".data s.data = false →
      normalize_output_filename s = ⟨pyRsplitDotHead s.data ++ ".mp4".data⟩) ∧
    normalize_output_filename "video" = "video.mp4" ∧
    normalize_output_filename "video.mkv" = "video.mp4" ∧
    normalize_output_filename "video.mp4" = "video.mp4" := by
  refine ⟨?_, fun h => ?_, fun h => ?_, by decide, by decide, by decide⟩
  · by_cases h : finishesWith ".mp4".data s.data = true
    · simp only [normalize_output_filename, if_pos h]
      exact h
    · simp only [normalize_output_filename, if_neg h]
      show beginsWith ".mp4".data.reverse (pyRsplitDotHead s.data ++ ".mp4".data).reverse = true
      rw [List.reverse_append]
      exact beginsWith_append _ _
  · simp only [normalize_output_filename, if_pos h]
  · simp only [normalize_output_filename, if_neg (by simp [h] : ¬finishesWith ".mp4".data s.data = true)]

/-- C7 witness: both normalization branches exercised — `video.mp4` is
left unchanged, `video.mkv` has its suffix stripped and `.mp4` appended. -/
theorem output_name_normalization_witness :
    normalize_output_filename "video.mp4" = "video.mp4" ∧
    normalize_output_filename "video.mkv" =
      ⟨pyRsplitDotHead "video.mkv".data ++ ".mp4".data⟩ :=
  ⟨(output_name_normalization "video.mp4").2.1 (by decide),
   (output_name_normalization "video.mkv").2.2.1 (by decide)⟩

/-! ### Lemmas about the segment fetchers -/

/-- A fetch pass that finishes without error appends exactly the
canonical filename of every matched line (index = number of previously
matched lines) and requests exactly the URLs of the matched lines whose
canonical filename is not in the completed-set. -/
theorem fetchGo_ok (base : String) (net : String → Option String) (completed : List String)
    (total : Nat) :
    ∀ (ls : List (List Char)) (st st' : FetchSt),
      fetchGo base net completed total ls st = (st', none) →
      st'.tsFiles = st.tsFiles ++ canonNamesGo base st.tsFiles.length ls ∧
      st'.requests = st.requests ++ requestUrlsGo base completed st.tsFiles.length ls := by
  intro ls
  induction ls with
  | nil =>
    intro st st' h
    simp only [fetchGo] at h
    obtain ⟨rfl, -⟩ := Prod.mk.injEq .. ▸ h
    simp [canonNamesGo, requestUrlsGo]
  | cons line rest ih =>
    intro st st' h
    simp only [fetchGo] at h
    by_cases ht : isTsLine line = true
    · rw [if_pos ht] at h
      by_cases hc : segmentFilename base st.tsFiles.length line ∈ completed
      · rw [if_pos hc] at h
        obtain ⟨h1, h2⟩ := ih _ _ h
        simp only [List.length_append, List.length_cons, List.length_nil] at h1 h2
        constructor
        · rw [h1]
          simp [canonNamesGo, ht, hc]
        · rw [h2]
          simp [requestUrlsGo, ht, hc]
      · rw [if_neg hc] at h
        split at h
        · exact absurd (congrArg Prod.snd h) (by simp)
        · obtain ⟨h1, h2⟩ := ih _ _ h
          simp only [List.length_append, List.length_cons, List.length_nil] at h1 h2
          constructor
          · rw [h1]
            simp [canonNamesGo, ht, hc]
          · rw [h2]
            simp [requestUrlsGo, ht, hc]
    · rw [if_neg ht] at h
      obtain ⟨h1, h2⟩ := ih _ _ h
      constructor
      · rw [h1]
        simp [canonNamesGo, ht]
      · rw [h2]
        simp [requestUrlsGo, ht]

/-- A fetch pass that aborts with `some u` decomposes as: a successful
pass over a proper prefix, then a matched, not-completed line whose GET
fails; the abort appends that single request and changes nothing else
(no retry, no further processing, no extra state write). -/
theorem fetchGo_err (base : String) (net : String → Option String) (completed : List String)
    (total : Nat) :
    ∀ (ls : List (List Char)) (st st' : FetchSt) (u : String),
      fetchGo base net completed total ls st = (st', some u) →
      ∃ pre line post st2,
        ls = pre ++ line :: post ∧
        fetchGo base net completed total pre st = (st2, none) ∧
        isTsLine line = true ∧
        segmentFilename base st2.tsFiles.length line ∉ completed ∧
        u = tsUrl base line ∧
        net u = none ∧
        st' = { st2 with requests := st2.requests ++ [u] } := by
  intro ls
  induction ls with
  | nil =>
    intro st st' u h
    simp only [fetchGo] at h
    exact absurd (congrArg Prod.snd h) (by simp)
  | cons line rest ih =>
    intro st st' u h
    simp only [fetchGo] at h
    by_cases ht : isTsLine line = true
    · rw [if_pos ht] at h
      by_cases hc : segmentFilename base st.tsFiles.length line ∈ completed
      · rw [if_pos hc] at h
        obtain ⟨pre, l2, post, st2, hsplit, hpre, hl2, hc2, hu, hn, hst⟩ := ih _ _ _ h
        refine ⟨line :: pre, l2, post, st2, by rw [hsplit, List.cons_append], ?_, hl2, hc2, hu, hn, hst⟩
        simp only [fetchGo]
        rw [if_pos ht, if_pos hc]
        exact hpre
      · rw [if_neg hc] at h
        split at h
        · rename_i hnet
          have hfst := congrArg Prod.fst h
          have hsnd := congrArg Prod.snd h
          simp only at hfst hsnd
          have hu : u = tsUrl base line := by
            cases hsnd
            rfl
          refine ⟨[], line, rest, st, rfl, rfl, ht, hc, hu, ?_, ?_⟩
          · rw [hu]
            exact hnet
          · rw [← hfst, hu]
        · rename_i body hnet
          obtain ⟨pre, l2, post, st2, hsplit, hpre, hl2, hc2, hu, hn, hst⟩ := ih _ _ _ h
          refine ⟨line :: pre, l2, post, st2, by rw [hsplit, List.cons_append], ?_, hl2, hc2, hu, hn, hst⟩
          simp only [fetchGo]
          rw [if_pos ht, if_neg hc, hnet]
          exact hpre
    · rw [if_neg ht] at h
      obtain ⟨pre, l2, post, st2, hsplit, hpre, hl2, hc2, hu, hn, hst⟩ := ih _ _ _ h
      refine ⟨line :: pre, l2, post, st2, by rw [hsplit, List.cons_append], ?_, hl2, hc2, hu, hn, hst⟩
      simp only [fetchGo]
      rw [if_neg ht]
      exact hpre

/-- Along any fetch pass the in-memory `downloaded_list` only grows, and
every state record written during the pass either was already in the
initial save list or contains every name in the initial
`downloaded_list`. -/
theorem fetchGo_dl_mono (base : String) (net : String → Option String) (completed : List String)
    (total : Nat) :
    ∀ (ls : List (List Char)) (st : FetchSt) (r : FetchSt × Option String),
      fetchGo base net completed total ls st = r →
      (∀ f ∈ st.dlList, f ∈ r.1.dlList) ∧
      (∀ s ∈ r.1.saves, s ∈ st.saves ∨ ∀ f ∈ st.dlList, f ∈ s.downloaded_segments) := by
  intro ls
  induction ls with
  | nil =>
    intro st r h
    simp only [fetchGo] at h
    subst h
    exact ⟨fun f hf => hf, fun s hs => Or.inl hs⟩
  | cons line rest ih =>
    intro st r h
    simp only [fetchGo] at h
    by_cases ht : isTsLine line = true
    · rw [if_pos ht] at h
      by_cases hc : segmentFilename base st.tsFiles.length line ∈ completed
      · rw [if_pos hc] at h
        exact ih { st with tsFiles := st.tsFiles ++ [segmentFilename base st.tsFiles.length line] } r h
      · rw [if_neg hc] at h
        split at h
        · subst h
          exact ⟨fun f hf => hf, fun s hs => Or.inl hs⟩
        · obtain ⟨hdl, hsv⟩ := ih _ _ h
          have hgrow : ∀ f ∈ st.dlList,
              f ∈ (if segmentFilename base st.tsFiles.length line ∈ st.dlList then st.dlList
                else st.dlList ++ [segmentFilename base st.tsFiles.length line]) := by
            intro f hf
            split
            · exact hf
            · exact List.mem_append_left _ hf
          refine ⟨fun f hf => hdl _ (hgrow _ hf), fun s hs => ?_⟩
          rcases hsv s hs with hs1 | hs2
      -- the save list passed into the recursive call had one record appended
          · rcases List.mem_append.mp hs1 with hold | hnew
            · exact Or.inl hold
            · refine Or.inr fun f hf => ?_
              have : s = ⟨if segmentFilename base st.tsFiles.length line ∈ st.dlList then st.dlList
                  else st.dlList ++ [segmentFilename base st.tsFiles.length line], total⟩ := by
                simpa using hnew
              rw [this]
              exact hgrow _ hf
          · exact Or.inr fun f hf => hs2 _ (hgrow _ hf)
    · rw [if_neg ht] at h
      exact ih _ _ h

/-- Scaffold shared by the resume-fetch claims: the outcome record of
`download_ts_segments_with_resume` is exactly the final loop state (and
error) of `fetchGo` started from the initial state the source builds
(empty accumulators, the persisted `downloaded_list`, and the initial
total-count write-through). -/
theorem resume_outcome (content base : String) (completed : List String)
    (persisted : DownloadState) (net : String → Option String) :
    ∃ (st' : FetchSt) (e : Option String),
      download_ts_segments_with_resume content base completed persisted net =
        ⟨st'.tsFiles, st'.requests, st'.saves, e⟩ ∧
      fetchGo base net completed ((pyLines content).filter isTsLine).length
        (pyLines content)
        ⟨[], [], persisted.downloaded_segments,
          [⟨persisted.downloaded_segments, ((pyLines content).filter isTsLine).length⟩]⟩ =
        (st', e) := by
  rcases hfg : fetchGo base net completed ((pyLines content).filter isTsLine).length
      (pyLines content)
      ⟨[], [], persisted.downloaded_segments,
        [⟨persisted.downloaded_segments, ((pyLines content).filter isTsLine).length⟩]⟩
    with ⟨st', e⟩
  refine ⟨st', e, ?_, rfl⟩
  simp only [download_ts_segments_with_resume]
  rw [hfg]

/-- The plain (non-resume) fetch loop, on success, also returns exactly
the canonical filename of every matched line in order. -/
theorem download_ts_segments_go_ok (base : String) (net : String → Option String) :
    ∀ (ls : List (List Char)) (files reqs files' reqs' : List String),
      download_ts_segments_go base net ls files reqs = (files', reqs', none) →
      files' = files ++ canonNamesGo base files.length ls := by
  intro ls
  induction ls with
  | nil =>
    intro files reqs files' reqs' h
    simp only [download_ts_segments_go] at h
    obtain ⟨rfl, -⟩ := Prod.mk.injEq .. ▸ h
    simp [canonNamesGo]
  | cons line rest ih =>
    intro files reqs files' reqs' h
    simp only [download_ts_segments_go] at h
    by_cases ht : isTsLine line = true
    · rw [if_pos ht] at h
      split at h
      · exact absurd (congrArg (fun p => p.2.2) h) (by simp)
      · have h1 := ih _ _ _ _ h
        simp only [List.length_append, List.length_cons, List.length_nil] at h1
        rw [h1]
        simp [canonNamesGo, ht]
    · rw [if_neg ht] at h
      have h1 := ih _ _ _ _ h
      rw [h1]
      simp [canonNamesGo, ht]

/-- The canonical filename at 0-based matched-position `j` is the
`segmentFilename` of the `j`-th matched line with index `i + j`. -/
theorem canonNamesGo_get (base : String) :
    ∀ (ls : List (List Char)) (i j : Nat),
      (canonNamesGo base i ls).get? j =
        ((ls.filter isTsLine).get? j).map (fun line => segmentFilename base (i + j) line) := by
  intro ls
  induction ls with
  | nil =>
    intro i j
    simp [canonNamesGo]
  | cons line rest ih =>
    intro i j
    by_cases ht : isTsLine line = true
    · have hcn : canonNamesGo base i (line :: rest) =
          segmentFilename base i line :: canonNamesGo base (i + 1) rest := by
        simp [canonNamesGo, ht]
      have hfl : (line :: rest).filter isTsLine = line :: rest.filter isTsLine := by
        simp [List.filter_cons, ht]
      rw [hcn, hfl]
      cases j with
      | zero => simp
      | succ j' =>
        simp only [List.get?_cons_succ]
        rw [ih (i + 1) j']
        have harith : i + 1 + j' = i + (j' + 1) := by omega
        rw [harith]
    · have hcn : canonNamesGo base i (line :: rest) = canonNamesGo base i rest := by
        simp [canonNamesGo, ht]
      have hfl : (line :: rest).filter isTsLine = rest.filter isTsLine := by
        simp [List.filter_cons, ht]
      rw [hcn, hfl, ih]

/-! ### Claim theorems: the segment fetchers -/

/-- C2: a resume-aware fetch pass that completes performs a GET exactly
for the matched lines whose derived filename is NOT in the completed-set
(so no network request happens for a completed segment), while the
returned list contains the canonical filename of every matched line of
the filtered manifest, in manifest order — completed segments included at
their original positions. -/
theorem resume_fetch_characterization (content base : String) (completed : List String)
    (persisted : DownloadState) (net : String → Option String)
    (h : (download_ts_segments_with_resume content base completed persisted net).err = none) :
    (download_ts_segments_with_resume content base completed persisted net).tsFiles =
      canonNames content base ∧
    (download_ts_segments_with_resume content base completed persisted net).requests =
      requestUrlsGo base completed 0 (pyLines content) := by
  obtain ⟨st', e, hout, hfg⟩ := resume_outcome content base completed persisted net
  rw [hout] at h
  simp only at h
  subst h
  obtain ⟨h1, h2⟩ := fetchGo_ok _ _ _ _ _ _ _ hfg
  rw [hout]
  simp only [List.length_nil] at h1 h2
  exact ⟨by rw [h1]; simp [canonNames], by rw [h2]; simp⟩

/-- C2 witness: completed-set containing exactly `seg_2.ts`; the pass
succeeds, returning all three names in order while requesting only the
other two URLs. -/
theorem resume_fetch_characterization_witness :
    (download_ts_segments_with_resume "seg_1.ts\nseg_2.ts\nseg_3.ts" "http://h/"
        ["seg_2.ts"] ⟨[], 0⟩ (fun _ => some "X")).tsFiles =
      canonNames "seg_1.ts\nseg_2.ts\nseg_3.ts" "http://h/" ∧
    (download_ts_segments_with_resume "seg_1.ts\nseg_2.ts\nseg_3.ts" "http://h/"
        ["seg_2.ts"] ⟨[], 0⟩ (fun _ => some "X")).requests =
      requestUrlsGo "http://h/" ["seg_2.ts"] 0 (pyLines "seg_1.ts\nseg_2.ts\nseg_3.ts") :=
  resume_fetch_characterization "seg_1.ts\nseg_2.ts\nseg_3.ts" "http://h/"
    ["seg_2.ts"] ⟨[], 0⟩ (fun _ => some "X") rfl

/-- C4 counterexample: for a matched line whose resolved URL path has no
usable basename, the minted synthetic filename carries a `.ts` extension
(`f"segment_(len(ts_files)).ts"`), so it is `segment_0.ts`, not the
claim's bare `segment_0`. -/
theorem synthetic_name_counterexample :
    deriveFilename "http://h/" "http://e.com?a=.ts?b".data = "" ∧
    (download_ts_segments_with_resume "http://e.com?a=.ts?b" "http://h/" [] ⟨[], 0⟩
        (fun _ => some "X")).tsFiles = ["segment_0.ts"] ∧
    ("segment_0.ts" : String) ≠ "segment_" ++ toString (0 : Nat) := by
  refine ⟨rfl, rfl, ?_⟩
  decide

/-- C4 amended: the synthetic filename is `segment_<ordinal>.ts` (with a
`.ts` extension), where the ordinal is the 0-based index of the segment
among the retained (post-filter) matched lines in playlist order; the
returned name list of a successful pass — resume-aware with any
completed-set, or the plain fresh-run fetcher — is the canonical list
`canonNames`, which depends only on the manifest and base URL, so the
ordinal is stable across fresh and resumed runs. -/
theorem synthetic_name_ordinal_stable :
    (∀ (content base : String) (completed : List String) (persisted : DownloadState)
        (net : String → Option String),
      (download_ts_segments_with_resume content base completed persisted net).err = none →
      (download_ts_segments_with_resume content base completed persisted net).tsFiles =
        canonNames content base) ∧
    (∀ (content base : String) (net : String → Option String),
      (download_ts_segments content base net).2.2 = none →
      (download_ts_segments content base net).1 = canonNames content base) ∧
    (∀ (content base : String) (j : Nat) (line : List Char),
      ((pyLines content).filter isTsLine).get? j = some line →
      deriveFilename base line = "" →
      (canonNames content base).get? j = some ("segment_" ++ toString j ++ ".ts")) := by
  refine ⟨?_, ?_, ?_⟩
  · intro content base completed persisted net h
    obtain ⟨st', e, hout, hfg⟩ := resume_outcome content base completed persisted net
    rw [hout] at h
    simp only at h
    subst h
    obtain ⟨h1, -⟩ := fetchGo_ok _ _ _ _ _ _ _ hfg
    rw [hout]
    simp only [List.length_nil] at h1
    rw [h1]
    simp [canonNames]
  · intro content base net h
    rcases hgo : download_ts_segments_go base net (pyLines content) [] []
      with ⟨files', reqs', err⟩
    have hd : download_ts_segments content base net = (files', reqs', err) := hgo
    rw [hd] at h ⊢
    simp only at h
    subst h
    have hok := download_ts_segments_go_ok base net (pyLines content) [] [] files' reqs' hgo
    simpa [canonNames] using hok
  · intro content base j line hget hderive
    show (canonNamesGo base 0 (pyLines content)).get? j = _
    rw [canonNamesGo_get base (pyLines content) 0 j, hget]
    simp [segmentFilename, hderive]

/-- C4 witness: a concrete matched line whose URL path yields no basename
is minted `segment_0.ts` at matched-position 0. -/
theorem synthetic_name_ordinal_stable_witness :
    (canonNames "http://e.com?a=.ts?b" "http://h/").get? 0 =
      some ("segment_" ++ toString (0 : Nat) ++ ".ts") :=
  synthetic_name_ordinal_stable.2.2 "http://e.com?a=.ts?b" "http://h/" 0
    "http://e.com?a=.ts?b".data (by decide) (by decide)

/-- C8: when a resume-aware fetch pass ends with an error for URL `u`,
the GET for `u` really failed and the pass decomposes as a successful
prefix followed by that single failing request: the error propagates, the
failing URL is requested exactly once with no in-process retry and no
further processing, the result list and the saved-state list are exactly
those of the successful prefix (the failure writes no state), and every
previously completed segment recorded in the persisted state is still
present in every state record written during the pass. -/
theorem transport_error_propagation (content base : String) (completed : List String)
    (persisted : DownloadState) (net : String → Option String) (u : String)
    (h : (download_ts_segments_with_resume content base completed persisted net).err = some u) :
    net u = none ∧
    (∀ f ∈ persisted.downloaded_segments,
      ∀ s ∈ (download_ts_segments_with_resume content base completed persisted net).saves,
        f ∈ s.downloaded_segments) ∧
    ∃ pre line post st2,
      pyLines content = pre ++ line :: post ∧
      fetchGo base net completed ((pyLines content).filter isTsLine).length pre
        ⟨[], [], persisted.downloaded_segments,
          [⟨persisted.downloaded_segments, ((pyLines content).filter isTsLine).length⟩]⟩ =
        (st2, none) ∧
      isTsLine line = true ∧
      segmentFilename base st2.tsFiles.length line ∉ completed ∧
      u = tsUrl base line ∧
      (download_ts_segments_with_resume content base completed persisted net).tsFiles =
        st2.tsFiles ∧
      (download_ts_segments_with_resume content base completed persisted net).saves =
        st2.saves ∧
      (download_ts_segments_with_resume content base completed persisted net).requests =
        st2.requests ++ [u] := by
  obtain ⟨st', e, hout, hfg⟩ := resume_outcome content base completed persisted net
  rw [hout] at h
  simp only at h
  subst h
  obtain ⟨pre, line, post, st2, hsplit, hpre, hl, hc, hu, hn, hst⟩ :=
    fetchGo_err _ _ _ _ _ _ _ _ hfg
  refine ⟨hn, ?_, pre, line, post, st2, hsplit, hpre, hl, hc, hu, ?_, ?_, ?_⟩
  · intro f hf s hs
    obtain ⟨-, hsv⟩ := fetchGo_dl_mono _ _ _ _ _ _ _ hfg
    rw [hout] at hs
    simp only at hs
    rcases hsv s hs with hs1 | hs2
    · have hs0 : s = ⟨persisted.downloaded_segments,
          ((pyLines content).filter isTsLine).length⟩ := by
        simpa using hs1
      rw [hs0]
      exact hf
    · exact hs2 f hf
  · rw [hout, hst]
  · rw [hout, hst]
  · rw [hout, hst]

/-- C8 witness: a one-segment manifest with an always-failing network —
the pass aborts on the single GET, propagating its URL. -/
theorem transport_error_propagation_witness :
    (fun _ : String => (none : Option String)) "http://h/a.ts" = none ∧
    (∀ f ∈ (DownloadState.mk [] 0).downloaded_segments,
      ∀ s ∈ (download_ts_segments_with_resume "a.ts" "http://h/" []
          ⟨[], 0⟩ (fun _ => none)).saves,
        f ∈ s.downloaded_segments) ∧
    ∃ pre line post st2,
      pyLines "a.ts" = pre ++ line :: post ∧
      fetchGo "http://h/" (fun _ => none) [] ((pyLines "a.ts").filter isTsLine).length pre
        ⟨[], [], (DownloadState.mk [] 0).downloaded_segments,
          [⟨(DownloadState.mk [] 0).downloaded_segments,
            ((pyLines "a.ts").filter isTsLine).length⟩]⟩ =
        (st2, none) ∧
      isTsLine line = true ∧
      segmentFilename "http://h/" st2.tsFiles.length line ∉ ([] : List String) ∧
      "http://h/a.ts" = tsUrl "http://h/" line ∧
      (download_ts_segments_with_resume "a.ts" "http://h/" [] ⟨[], 0⟩
        (fun _ => none)).tsFiles = st2.tsFiles ∧
      (download_ts_segments_with_resume "a.ts" "http://h/" [] ⟨[], 0⟩
        (fun _ => none)).saves = st2.saves ∧
      (download_ts_segments_with_resume "a.ts" "http://h/" [] ⟨[], 0⟩
        (fun _ => none)).requests = st2.requests ++ ["http://h/a.ts"] :=
  transport_error_propagation "a.ts" "http://h/" [] ⟨[], 0⟩ (fun _ => none)
    "http://h/a.ts" rfl

end M3u8
